import Mathlib

/-!
Shallow embedding of `charset/charset.go` from sublime-security/go-message.

The Go package resolves a charset name to a codec (`charsetEncoding`),
wraps streams with that codec (`Reader`, `Writer`), and lets callers add
entries to a quirks table (`RegisterEncoding`).

Modelling choices:
* `encoding.Encoding` values are opaque capabilities supplied by external
  libraries; they are modelled by the inductive `Encoding`, with dedicated
  constructors for the two codecs the quirks table names
  (`charmap.ISO8859_1`, `unicode.UTF8`) and `other n` for any further codec
  an external index may return.
* The Go map `charsets : map[string]encoding.Encoding` (whose values may be
  nil, meaning "disabled") is modelled as an association list
  `List (String × Option Encoding)`; `none` is Go's nil entry.  Go map
  lookup `enc, ok := m[k]` is `List.lookup`; Go map assignment `m[k] = v`
  is `mapSet` below.
* The two external name indices (`ianaindex.MIME.Encoding` and
  `htmlindex.Get`) are not part of this repository; they are parameters of
  type `Index`, a function from the queried name to a pair
  (possibly-nil codec, possibly-nil error), which covers every behaviour
  the Go interface allows, including the (nil, nil) answer that
  golang.org issue 19421 documents.
* Go's `strings.ToLower` is modelled by Lean's `String.toLower` (the
  names involved are ASCII, where the two agree).
* `fmt.Errorf` results are modelled by the structured type `ResolveError`
  carrying the literal charset argument; `ResolveError.message` renders
  the format strings, with `%q` simplified to plain double quoting.
* To state "no external index is consulted", `charsetEncoding` also
  returns the list of index queries it performed, in order, mirroring
  exactly the calls the Go function makes.
-/

namespace Charset

/-- Go's `strings.ToLower`, modelled characterwise with `Char.toLower`
(the charset names involved are ASCII, where Go and Lean agree).  Written
via `List.map` on the character data so that it is structurally
computable; `strToLower_eq_toLower` below checks it agrees with Lean's
own `String.toLower`. -/
def strToLower (s : String) : String :=
  ⟨s.data.map Char.toLower⟩

/-- A codec from the external encoding library (`encoding.Encoding`).
`ISO8859_1` stands for `charmap.ISO8859_1` and `UTF8` for `unicode.UTF8`;
`other n` stands for any further codec an external index can supply. -/
inductive Encoding where
  | ISO8859_1 : Encoding
  | UTF8 : Encoding
  | other : Nat → Encoding
deriving DecidableEq

/-- The quirks table: Go's `map[string]encoding.Encoding`, where a `none`
value is Go's nil entry (a disabled charset). -/
abbrev Charsets := List (String × Option Encoding)

/-- The seed value of the package-level `charsets` map. -/
def charsets : Charsets :=
  [("ansi_x3.110-1983", some Encoding.ISO8859_1),
   ("x-utf_8j", some Encoding.UTF8)]

/-- Go map assignment `m[k] = v`: overwrite the entry for `k` if present,
otherwise append a new one. -/
def mapSet (tbl : Charsets) (k : String) (v : Option Encoding) : Charsets :=
  match tbl with
  | [] => [(k, v)]
  | (k', v') :: rest =>
      if k' = k then (k, v) :: rest else (k', v') :: mapSet rest k v

/-- An external name index (`ianaindex.MIME.Encoding` or `htmlindex.Get`):
given a name it returns a possibly-nil codec and a possibly-nil error. -/
abbrev Index := String → Option Encoding × Option String

/-- A query issued to an external index, recorded for the instrumentation
of `charsetEncoding`. -/
inductive Query where
  | mime : String → Query
  | html : String → Query
deriving DecidableEq

/-- The failures `charsetEncoding` can return, each carrying the literal
`charset` argument of the call. -/
inductive ResolveError where
  | disabled : String → ResolveError
  | lookupFailure : String → String → ResolveError
  | unsupported : String → ResolveError
deriving DecidableEq

/-- Rendering of the `fmt.Errorf` format strings of `charsetEncoding`
(`%q` simplified to plain double quoting). -/
def ResolveError.message : ResolveError → String
  | .disabled c => "charset \"" ++ c ++ "\": charset is disabled"
  | .lookupFailure c e => "charset \"" ++ c ++ "\": " ++ e
  | .unsupported c => "charset \"" ++ c ++ "\": unsupported charset"

/-- The quirks-table step of resolution:
Go's `enc, ok := charsets[strings.ToLower(charset)]`.
`none` is `ok = false`; `some v` is `ok = true` with map value `v`. -/
def quirksLookup (tbl : Charsets) (charset : String) : Option (Option Encoding) :=
  tbl.lookup (strToLower charset)

/-- The mutable state Go threads through `charsetEncoding`'s body: the
current `enc` and `err` variables, plus the instrumentation log of index
queries made so far. -/
structure Step where
  enc : Option Encoding
  err : Option String
  log : List Query
deriving DecidableEq

/-- Embedding of `charsetEncoding` (charset.go lines 37-59), parameterised
by the table state and the two external indices.  Returns the Go result
(`(encoding.Encoding, error)` as an `Except`) together with the list of
external index queries performed, in order. -/
def charsetEncoding (tbl : Charsets) (mime html : Index) (charset : String) :
    Except ResolveError Encoding × List Query :=
  let looked := quirksLookup tbl charset
  let ok := looked.isSome
  let enc0 : Option Encoding := looked.getD none
  if ok = true ∧ enc0 = none then
    (Except.error (.disabled charset), [])
  else
    let s1 : Step :=
      if ok = false then
        let q := mime charset
        ⟨q.1, q.2, [Query.mime charset]⟩
      else ⟨enc0, none, []⟩
    let s2 : Step :=
      if s1.enc = none then
        let q := mime ("cs" ++ charset)
        ⟨q.1, q.2, s1.log ++ [Query.mime ("cs" ++ charset)]⟩
      else s1
    let s3 : Step :=
      if s2.enc = none then
        let q := html charset
        ⟨q.1, q.2, s2.log ++ [Query.html charset]⟩
      else s2
    match s3.err with
    | some e => (Except.error (.lookupFailure charset e), s3.log)
    | none =>
      match s3.enc with
      | none => (Except.error (.unsupported charset), s3.log)
      | some e => (Except.ok e, s3.log)

/-- Byte streams: `source` is any caller-supplied `io.Reader`/`io.Writer`;
`decoderReader enc s` is Go's `enc.NewDecoder().Reader(s)` and
`encoderWriter enc s` is `enc.NewEncoder().Writer(s)`. -/
inductive ByteStream where
  | source : Nat → ByteStream
  | decoderReader : Encoding → ByteStream → ByteStream
  | encoderWriter : Encoding → ByteStream → ByteStream
deriving DecidableEq

/-- Embedding of `Reader` (charset.go lines 62-68). -/
def Reader (tbl : Charsets) (mime html : Index) (charset : String)
    (input : ByteStream) : ByteStream × Option ResolveError :=
  match (charsetEncoding tbl mime html charset).1 with
  | Except.error e => (input, some e)
  | Except.ok enc => (ByteStream.decoderReader enc input, none)

/-- Embedding of `Writer` (charset.go lines 71-77). -/
def Writer (tbl : Charsets) (mime html : Index) (charset : String)
    (writer : ByteStream) : ByteStream × Option ResolveError :=
  match (charsetEncoding tbl mime html charset).1 with
  | Except.error e => (writer, some e)
  | Except.ok enc => (ByteStream.encoderWriter enc writer, none)

/-- Embedding of `RegisterEncoding` (charset.go lines 81-83):
`charsets[name] = enc`, as a pure function on the table state. -/
def RegisterEncoding (tbl : Charsets) (name : String) (enc : Option Encoding) :
    Charsets :=
  mapSet tbl name enc

/-- An index with no entries and no errors, for concrete instantiations. -/
def emptyIndex : Index := fun _ => (none, none)

/-- Validation: the computable model of `strings.ToLower` agrees with
Lean's `String.toLower`. -/
theorem strToLower_eq_toLower (s : String) : strToLower s = s.toLower := by
  rw [String.toLower, String.map_eq, strToLower]

/-- The fallback chain of `charsetEncoding` after a quirks-table miss,
extracted for reuse in proofs: the MIME query with the original name, then
(if the codec is still nil) the MIME query with the `"cs"`-prefixed name,
then (if still nil) the HTML query, followed by the final `err`/`enc`
checks. -/
def fallback (mime html : Index) (c : String) :
    Except ResolveError Encoding × List Query :=
  let s1 : Step := ⟨(mime c).1, (mime c).2, [Query.mime c]⟩
  let s2 : Step :=
    if s1.enc = none then
      ⟨(mime ("cs" ++ c)).1, (mime ("cs" ++ c)).2, s1.log ++ [Query.mime ("cs" ++ c)]⟩
    else s1
  let s3 : Step :=
    if s2.enc = none then
      ⟨(html c).1, (html c).2, s2.log ++ [Query.html c]⟩
    else s2
  match s3.err with
  | some e => (Except.error (.lookupFailure c e), s3.log)
  | none =>
    match s3.enc with
    | none => (Except.error (.unsupported c), s3.log)
    | some e => (Except.ok e, s3.log)

/-- The `(enc, err)` pair left by the last external-index step that
`charsetEncoding` attempts after a quirks-table miss: a later step runs
only when the earlier one left a nil codec, and each step that runs
overwrites both `enc` and `err`. -/
def lastStep (mime html : Index) (c : String) :
    Option Encoding × Option String :=
  let r1 := mime c
  let r2 := if r1.1 = none then mime ("cs" ++ c) else r1
  if r2.1 = none then html c else r2

theorem charsetEncoding_quirks_disabled (tbl : Charsets) (mime html : Index)
    (c : String) (h : quirksLookup tbl c = some none) :
    charsetEncoding tbl mime html c = (Except.error (.disabled c), []) := by
  simp [charsetEncoding, h]

theorem charsetEncoding_quirks_found (tbl : Charsets) (mime html : Index)
    (c : String) (e : Encoding) (h : quirksLookup tbl c = some (some e)) :
    charsetEncoding tbl mime html c = (Except.ok e, []) := by
  simp [charsetEncoding, h]

theorem charsetEncoding_quirks_missing (tbl : Charsets) (mime html : Index)
    (c : String) (h : quirksLookup tbl c = none) :
    charsetEncoding tbl mime html c = fallback mime html c := by
  simp [charsetEncoding, fallback, h]

theorem lookup_mapSet_self (tbl : Charsets) (k : String) (v : Option Encoding) :
    (mapSet tbl k v).lookup k = some v := by
  induction tbl with
  | nil => simp [mapSet, List.lookup_cons]
  | cons hd tl ih =>
    obtain ⟨k', v'⟩ := hd
    by_cases hk : k' = k
    · simp [mapSet, hk, List.lookup_cons]
    · have hb : (k == k') = false := beq_false_of_ne (Ne.symm hk)
      simp [mapSet, hk, List.lookup_cons, hb, ih]

theorem lookup_mapSet_ne (tbl : Charsets) (k k' : String) (v : Option Encoding)
    (hne : k' ≠ k) : (mapSet tbl k v).lookup k' = tbl.lookup k' := by
  induction tbl with
  | nil =>
    have hb : (k' == k) = false := beq_false_of_ne hne
    simp [mapSet, List.lookup_cons, hb]
  | cons hd tl ih =>
    obtain ⟨k'', v''⟩ := hd
    by_cases hk : k'' = k
    · subst hk
      have hb : (k' == k'') = false := beq_false_of_ne hne
      simp [mapSet, List.lookup_cons, hb]
    · simp [mapSet, hk, List.lookup_cons, ih]

theorem char_toLower_idem (c : Char) : c.toLower.toLower = c.toLower := by
  unfold Char.toLower
  by_cases h : c.toNat ≥ 65 ∧ c.toNat ≤ 90
  · rw [if_pos h]
    have hval : (Char.ofNat (c.toNat + 32)).toNat = c.toNat + 32 := by
      rw [Char.ofNat, dif_pos (Or.inl (by omega : c.toNat + 32 < 55296))]
      rfl
    rw [if_neg (by rw [hval]; omega)]
  · rw [if_neg h, if_neg h]

theorem strToLower_idem (s : String) : strToLower (strToLower s) = strToLower s := by
  simp only [strToLower, List.map_map]
  exact congrArg String.mk (List.map_congr_left fun c _ => char_toLower_idem c)

theorem lookup_isSome_iff (tbl : Charsets) (k : String) :
    (tbl.lookup k).isSome ↔ ∃ v, (k, v) ∈ tbl := by
  induction tbl with
  | nil => simp
  | cons hd tl ih =>
    obtain ⟨k', v'⟩ := hd
    by_cases hk : k = k'
    · subst hk
      simp [List.lookup_cons]
    · have hb : (k == k') = false := beq_false_of_ne hk
      simp [List.lookup_cons, hb, hk, ih]

/-! ### Concrete index instances used by witnesses and counterexamples -/

/-- An index that errors on `"foo"` but resolves `"csfoo"`: MIME behaviour
under which the error of the first fallback step is superseded. -/
def mimeFooIndex : Index := fun s =>
  if s = "foo" then (none, some "iana lookup failed")
  else if s = "csfoo" then (some (Encoding.other 7), none)
  else (none, none)

/-- An index that resolves `"FOO"` (and nothing else) to `other 1`. -/
def mimeFOOIndex : Index := fun s =>
  if s = "FOO" then (some (Encoding.other 1), none) else (none, none)

/-- An index that reports an error for every name. -/
def failIndex : Index := fun _ => (none, some "index broken")

/-! ### Claims -/

/-- C1: For every charset name absent from the Quirks Table (after
lowercasing), resolution queries the external indices in this exact
order, stopping at the first step that yields a codec: (1) the MIME name
index with the original, non-lowercased name; (2) the MIME name index
with the name prefixed by `"cs"`; (3) the HTML-label index with the
original name.  A later step is attempted only if every earlier step
yielded no codec. -/
theorem charsetEncoding_query_order (tbl : Charsets) (mime html : Index)
    (c : String) (h : quirksLookup tbl c = none) :
    (charsetEncoding tbl mime html c).2 =
      if (mime c).1.isSome then [Query.mime c]
      else if (mime ("cs" ++ c)).1.isSome then
        [Query.mime c, Query.mime ("cs" ++ c)]
      else [Query.mime c, Query.mime ("cs" ++ c), Query.html c] := by
  rw [charsetEncoding_quirks_missing tbl mime html c h]
  rcases h1 : (mime c).1 with _ | e1
  · rcases h2 : (mime ("cs" ++ c)).1 with _ | e2
    · rcases h3 : (html c).1 with _ | e3 <;>
        rcases h3e : (html c).2 with _ | e3e <;>
          simp [fallback, h1, h2, h3, h3e]
    · rcases h2e : (mime ("cs" ++ c)).2 with _ | e2e <;>
        simp [fallback, h1, h2, h2e]
  · rcases h1e : (mime c).2 with _ | e1e <;> simp [fallback, h1, h1e]

/-- C1 witness: with the seed table and empty indices, resolving `"zzz"`
walks all three steps in order. -/
theorem charsetEncoding_query_order_witness :
    quirksLookup charsets "zzz" = none ∧
    (charsetEncoding charsets emptyIndex emptyIndex "zzz").2 =
      (if (emptyIndex "zzz").1.isSome then [Query.mime "zzz"]
       else if (emptyIndex ("cs" ++ "zzz")).1.isSome then
         [Query.mime "zzz", Query.mime ("cs" ++ "zzz")]
       else [Query.mime "zzz", Query.mime ("cs" ++ "zzz"), Query.html "zzz"]) :=
  ⟨by decide,
   charsetEncoding_query_order charsets emptyIndex emptyIndex "zzz" (by decide)⟩

/-- C2: a quirks-table hit on the lowercased name short-circuits
resolution.  If the entry is the disabled marker (nil), resolution fails
at once with the "charset is disabled" error embedding the literal
requested name and no external index query is made (the query log is
empty); if the entry is a non-nil codec, that codec is returned, again
with no external index query. -/
theorem quirks_hit_short_circuits (tbl : Charsets) (mime html : Index)
    (c : String) :
    (quirksLookup tbl c = some none →
      charsetEncoding tbl mime html c = (Except.error (.disabled c), []) ∧
      (ResolveError.disabled c).message =
        "charset \"" ++ c ++ "\": charset is disabled") ∧
    (∀ e, quirksLookup tbl c = some (some e) →
      charsetEncoding tbl mime html c = (Except.ok e, [])) :=
  ⟨fun h => ⟨charsetEncoding_quirks_disabled tbl mime html c h, rfl⟩,
   fun e h => charsetEncoding_quirks_found tbl mime html c e h⟩

/-- C2 witness: `"BAD"` is disabled by a nil entry for `"bad"`, and the
seed entry `"x-utf_8j"` resolves with no index query. -/
theorem quirks_hit_short_circuits_witness :
    charsetEncoding [("bad", none)] emptyIndex emptyIndex "BAD" =
      (Except.error (.disabled "BAD"), []) ∧
    charsetEncoding charsets emptyIndex emptyIndex "x-utf_8j" =
      (Except.ok Encoding.UTF8, []) :=
  ⟨((quirks_hit_short_circuits [("bad", none)] emptyIndex emptyIndex "BAD").1
      (by decide)).1,
   (quirks_hit_short_circuits charsets emptyIndex emptyIndex "x-utf_8j").2
      Encoding.UTF8 (by decide)⟩

/-- C3: when resolution fails, `Reader` returns the exact original input
stream with the (non-nil) error and `Writer` returns the exact original
output stream with the error; when it succeeds, each returns the
codec-wrapped stream and no error. -/
theorem reader_writer_degrade (tbl : Charsets) (mime html : Index)
    (c : String) (input writer : ByteStream) :
    (∀ e, (charsetEncoding tbl mime html c).1 = Except.error e →
      Reader tbl mime html c input = (input, some e) ∧
      Writer tbl mime html c writer = (writer, some e)) ∧
    (∀ enc, (charsetEncoding tbl mime html c).1 = Except.ok enc →
      Reader tbl mime html c input = (ByteStream.decoderReader enc input, none) ∧
      Writer tbl mime html c writer = (ByteStream.encoderWriter enc writer, none)) := by
  constructor <;> intro x hx <;>
    exact ⟨by simp [Reader, hx], by simp [Writer, hx]⟩

/-- C3 witness: the unresolvable `"zzz"` hands back the original streams
with the unsupported error; `"x-utf_8j"` wraps them. -/
theorem reader_writer_degrade_witness :
    Reader charsets emptyIndex emptyIndex "zzz" (ByteStream.source 0) =
      (ByteStream.source 0, some (.unsupported "zzz")) ∧
    Writer charsets emptyIndex emptyIndex "x-utf_8j" (ByteStream.source 1) =
      (ByteStream.encoderWriter Encoding.UTF8 (ByteStream.source 1), none) :=
  ⟨((reader_writer_degrade charsets emptyIndex emptyIndex "zzz"
      (ByteStream.source 0) (ByteStream.source 0)).1
      (.unsupported "zzz") (by rfl)).1,
   ((reader_writer_degrade charsets emptyIndex emptyIndex "x-utf_8j"
      (ByteStream.source 1) (ByteStream.source 1)).2
      Encoding.UTF8 (by rfl)).2⟩

/-- C4: every case-variant of `"ansi_x3.110-1983"` resolves (for any
index behaviour, with no error and no index query) to the ISO-8859-1
codec, and every case-variant of `"x-utf_8j"` to the UTF-8 codec. -/
theorem seed_entries_resolve (mime html : Index) (c : String) :
    (strToLower c = "ansi_x3.110-1983" →
      charsetEncoding charsets mime html c = (Except.ok Encoding.ISO8859_1, [])) ∧
    (strToLower c = "x-utf_8j" →
      charsetEncoding charsets mime html c = (Except.ok Encoding.UTF8, [])) := by
  constructor <;> intro h <;>
    exact charsetEncoding_quirks_found _ _ _ _ _ (by rw [quirksLookup, h]; decide)

/-- C4 witness: the upper-case variants of both seed names resolve to the
documented codecs. -/
theorem seed_entries_resolve_witness :
    charsetEncoding charsets emptyIndex emptyIndex "ANSI_X3.110-1983" =
      (Except.ok Encoding.ISO8859_1, []) ∧
    charsetEncoding charsets emptyIndex emptyIndex "X-UTF_8J" =
      (Except.ok Encoding.UTF8, []) :=
  ⟨(seed_entries_resolve emptyIndex emptyIndex "ANSI_X3.110-1983").1 (by decide),
   (seed_entries_resolve emptyIndex emptyIndex "X-UTF_8J").2 (by decide)⟩

/-- C5 counterexample: `RegisterEncoding` stores the key as supplied while
lookup lowercases the query, so registering the non-lowercase name
`"FOO"` with codec `other 0` does not shadow the MIME index: resolving
`"FOO"` afterwards returns the index codec `other 1`, not the registered
codec. -/
theorem registerEncoding_case_counterexample :
    (charsetEncoding (RegisterEncoding charsets "FOO" (some (Encoding.other 0)))
        mimeFOOIndex emptyIndex "FOO").1 = Except.ok (Encoding.other 1) ∧
    Encoding.other 1 ≠ Encoding.other 0 :=
  ⟨rfl, by decide⟩

/-- C5 (amended): for every name equal to its own lowercasing (in
particular every name stored in the convention the table's lookup uses),
after `RegisterEncoding (name, codec)` with a non-nil codec, resolving
that name returns the newly registered codec with no external index
query, for any index behaviour. -/
theorem registerEncoding_precedence (tbl : Charsets) (mime html : Index)
    (name : String) (enc : Encoding) (h : strToLower name = name) :
    charsetEncoding (RegisterEncoding tbl name (some enc)) mime html name =
      (Except.ok enc, []) := by
  refine charsetEncoding_quirks_found _ _ _ _ _ ?_
  rw [quirksLookup, h, RegisterEncoding]
  exact lookup_mapSet_self tbl name (some enc)

/-- C5 witness: registering the lowercase `"foo"` overrides an index that
would resolve it differently. -/
theorem registerEncoding_precedence_witness :
    charsetEncoding (RegisterEncoding charsets "foo" (some (Encoding.other 0)))
        mimeFooIndex emptyIndex "foo" = (Except.ok (Encoding.other 0), []) :=
  registerEncoding_precedence charsets mimeFooIndex emptyIndex "foo"
    (Encoding.other 0) (by decide)

/-- C6: if the quirks table misses and all three external steps yield
neither codec nor error, resolution fails with the "unsupported charset"
error embedding the literal requested name. -/
theorem charsetEncoding_unsupported (tbl : Charsets) (mime html : Index)
    (c : String) (h : quirksLookup tbl c = none)
    (h1 : mime c = (none, none)) (h2 : mime ("cs" ++ c) = (none, none))
    (h3 : html c = (none, none)) :
    (charsetEncoding tbl mime html c).1 = Except.error (.unsupported c) ∧
    (ResolveError.unsupported c).message =
      "charset \"" ++ c ++ "\": unsupported charset" := by
  rw [charsetEncoding_quirks_missing tbl mime html c h]
  exact ⟨by simp [fallback, h1, h2, h3], rfl⟩

/-- C6 witness: `"zzz"` with indices that always answer (nil, nil). -/
theorem charsetEncoding_unsupported_witness :
    (charsetEncoding charsets emptyIndex emptyIndex "zzz").1 =
      Except.error (.unsupported "zzz") :=
  (charsetEncoding_unsupported charsets emptyIndex emptyIndex "zzz"
    (by decide) rfl rfl rfl).1

/-- C7 counterexample: the MIME index errors on `"foo"`, yet resolution
succeeds, because the `"cs"`-prefixed query is still attempted and its
result overwrites the pending error. -/
theorem lookup_error_superseded_counterexample :
    (mimeFooIndex "foo").2 = some "iana lookup failed" ∧
    (charsetEncoding charsets mimeFooIndex emptyIndex "foo").1 =
      Except.ok (Encoding.other 7) :=
  ⟨rfl, rfl⟩

/-- C7 (amended): after a quirks-table miss, resolution fails with an
error wrapping an underlying index error together with the literal
requested name exactly when the last external step attempted (later
steps run only when the earlier ones yielded no codec, and overwrite the
pending error) returned that error. -/
theorem last_step_error_propagates (tbl : Charsets) (mime html : Index)
    (c : String) (h : quirksLookup tbl c = none) (e : String) :
    (charsetEncoding tbl mime html c).1 = Except.error (.lookupFailure c e) ↔
      (lastStep mime html c).2 = some e := by
  rw [charsetEncoding_quirks_missing tbl mime html c h]
  rcases h1 : (mime c).1 with _ | e1
  · rcases h2 : (mime ("cs" ++ c)).1 with _ | e2
    · rcases h3e : (html c).2 with _ | e3e <;>
        rcases h3 : (html c).1 with _ | e3 <;>
          simp [fallback, lastStep, h1, h2, h3, h3e]
    · rcases h2e : (mime ("cs" ++ c)).2 with _ | e2e <;>
        simp [fallback, lastStep, h1, h2, h2e]
  · rcases h1e : (mime c).2 with _ | e1e <;>
      simp [fallback, lastStep, h1, h1e]

/-- C7 witness: with an always-failing index, the propagated error is the
one reported by the last attempted step. -/
theorem last_step_error_propagates_witness :
    (charsetEncoding charsets failIndex failIndex "zzz").1 =
      Except.error (.lookupFailure "zzz" "index broken") :=
  (last_step_error_propagates charsets failIndex failIndex "zzz"
    (by decide) "index broken").mpr rfl

/-- C8: the quirks-table step is case-insensitive — it yields the same
outcome (same found/disabled status, same codec) for a name and for its
lowercased form — and an entry matches exactly when its stored key equals
the lowercased query. -/
theorem quirksLookup_case_insensitive (tbl : Charsets) (c : String) :
    quirksLookup tbl c = quirksLookup tbl (strToLower c) ∧
    ((quirksLookup tbl c).isSome ↔ ∃ v, (strToLower c, v) ∈ tbl) := by
  constructor
  · rw [quirksLookup, quirksLookup, strToLower_idem]
  · rw [quirksLookup]
    exact lookup_isSome_iff tbl (strToLower c)

/-- C9: `RegisterEncoding` always succeeds, stores the entry under exactly
the supplied (case-sensitive) name, and leaves every other entry of the
table — in particular the seed entries — unchanged. -/
theorem registerEncoding_frame (tbl : Charsets) (name : String)
    (enc : Option Encoding) :
    (RegisterEncoding tbl name enc).lookup name = some enc ∧
    (∀ k, k ≠ name → (RegisterEncoding tbl name enc).lookup k = tbl.lookup k) :=
  ⟨lookup_mapSet_self tbl name enc,
   fun k hk => lookup_mapSet_ne tbl name k enc hk⟩

/-- C9 witness: registering `"foo"` leaves the seed entry `"x-utf_8j"`
untouched and is itself retrievable. -/
theorem registerEncoding_frame_witness :
    (RegisterEncoding charsets "foo" (some Encoding.UTF8)).lookup "foo" =
      some (some Encoding.UTF8) ∧
    (RegisterEncoding charsets "foo" (some Encoding.UTF8)).lookup "x-utf_8j" =
      charsets.lookup "x-utf_8j" :=
  ⟨(registerEncoding_frame charsets "foo" (some Encoding.UTF8)).1,
   (registerEncoding_frame charsets "foo" (some Encoding.UTF8)).2
      "x-utf_8j" (by decide)⟩

/-- C10: registering a name with a nil codec disables it: any query whose
lowercasing equals the stored key then fails with the "charset is
disabled" error and no external index is consulted (the query log is
empty), whatever the indices would answer. -/
theorem register_nil_disables (tbl : Charsets) (mime html : Index)
    (name q : String) (h : strToLower q = name) :
    charsetEncoding (RegisterEncoding tbl name none) mime html q =
      (Except.error (.disabled q), []) := by
  refine charsetEncoding_quirks_disabled _ _ _ _ ?_
  rw [quirksLookup, h, RegisterEncoding]
  exact lookup_mapSet_self tbl name none

/-- C10 witness: after disabling `"foo"`, resolving `"FOO"` fails as
disabled even though the MIME index would resolve it. -/
theorem register_nil_disables_witness :
    charsetEncoding (RegisterEncoding charsets "foo" none)
        mimeFOOIndex emptyIndex "FOO" =
      (Except.error (.disabled "FOO"), []) :=
  register_nil_disables charsets mimeFOOIndex emptyIndex "foo" "FOO" (by decide)

end Charset

